import Mathlib

/-!
Shallow embedding of the quad tree of src/quad_tree/quad_tree.h.

Modelling choices:
* The C++ code is generic over the point component type; the model
  instantiates components at `ℤ` with the midpoint `(a + b) / 2` computed by
  `Int.tdiv`, the truncation-toward-zero division of a C++ integer component
  type.  None of the verified claims depends on the rounding mode.
* A `Handle` models a `PointIterator`: an identity (`id`, the position in the
  caller's collection, which is what `std::set<PointIterator>`'s ordering
  compares) together with the point it dereferences to.
* `m_points : std::set<PointIterator>` is modelled as a strictly-id-sorted
  duplicate-free list; `insertHandle` mirrors `std::set::insert` (no-op when
  the key is already present), and list order is the set's iteration order.
* The node stores its point set in both the leaf and the internal state, as
  the C++ object does; `has_children` corresponds to the constructor used
  (`QT.leaf` vs `QT.node`).  The `assert` in `has_children` documents that the
  four child pointers are all present or all absent, which is why `QT.node`
  carries exactly four children.  The display-only `m_level` field is omitted.
* Exceptions are modelled with `Except QtError`.
-/

namespace QuadTreeModel

/-- A 2-dimensional point; component 0 is `x`, component 1 is `y`. -/
structure Pt where
  x : ℤ
  y : ℤ
deriving DecidableEq, Repr

/-- `Boundary = std::pair<Point, Point>`: upper-left and lower-right corners. -/
structure Boundary where
  ul : Pt
  lr : Pt
deriving DecidableEq, Repr

/-- A point handle (a `PointIterator`): its position in the caller's
collection and the point it dereferences to. -/
structure Handle where
  id : ℕ
  pt : Pt
deriving DecidableEq, Repr

/-- The exceptions thrown by the source: empty-range `std::runtime_error`,
the two boundary `std::runtime_error`s, and the `std::logic_error`
("This should not happen"). -/
inductive QtError where
  | emptyRange
  | degenerateBoundary
  | invertedBoundary
  | logicError
deriving DecidableEq, Repr

/-- The quad tree node.  `leaf` is a node with no children, `node` is a node
with all four children (`m_north_west`, `m_north_east`, `m_south_west`,
`m_south_east`); both carry the `m_points` set, modelled as a sorted list. -/
inductive QT where
  | leaf (bd : Boundary) (pts : List Handle) : QT
  | node (bd : Boundary) (pts : List Handle) (nw ne sw se : QT) : QT
deriving DecidableEq, Repr

/-- Decidable equality for `Except`, so that concrete runs of the model can
be settled by `decide`. -/
instance {ε α : Type} [DecidableEq ε] [DecidableEq α] : DecidableEq (Except ε α) := fun x y =>
  match x, y with
  | .ok a, .ok b => if h : a = b then isTrue (by rw [h]) else isFalse (by simp [h])
  | .error a, .error b => if h : a = b then isTrue (by rw [h]) else isFalse (by simp [h])
  | .ok _, .error _ => isFalse (by simp)
  | .error _, .ok _ => isFalse (by simp)

/-- `std::set<PointIterator>::insert`: insert the handle at its sorted
position, a no-op when a handle with the same identity is already present. -/
def insertHandle (h : Handle) : List Handle → List Handle
  | [] => [h]
  | x :: xs =>
    if h.id < x.id then h :: x :: xs
    else if h.id = x.id then x :: xs
    else x :: insertHandle h xs

/-- `quad_tree::check_boundary`: degenerate boundaries (equal coordinates on
some axis) are rejected first, then inverted ones. -/
def check_boundary (b : Boundary) : Except QtError Unit :=
  if b.ul.x = b.lr.x ∨ b.ul.y = b.lr.y then .error .degenerateBoundary
  else if b.ul.x > b.lr.x ∨ b.ul.y > b.lr.y then .error .invertedBoundary
  else .ok ()

/-- `quad_tree::point_intersects_boundary`: closed-interval containment on
both axes, all four sides inclusive. -/
def point_intersects_boundary (b : Boundary) (p : Pt) : Bool :=
  decide (p.x ≥ b.ul.x) && decide (p.y ≥ b.ul.y) &&
  decide (p.x ≤ b.lr.x) && decide (p.y ≤ b.lr.y)

/-- The split center: componentwise midpoint of the boundary corners. -/
def center (b : Boundary) : Pt :=
  ⟨Int.tdiv (b.lr.x + b.ul.x) 2, Int.tdiv (b.lr.y + b.ul.y) 2⟩

/-- Boundary of the north-west child built in `quad_tree::split`. -/
def nwBoundary (b : Boundary) : Boundary :=
  ⟨b.ul, center b⟩

/-- Boundary of the north-east child built in `quad_tree::split`. -/
def neBoundary (b : Boundary) : Boundary :=
  ⟨⟨(center b).x, b.ul.y⟩, ⟨b.lr.x, (center b).y⟩⟩

/-- Boundary of the south-east child built in `quad_tree::split`. -/
def seBoundary (b : Boundary) : Boundary :=
  ⟨center b, b.lr⟩

/-- Boundary of the south-west child built in `quad_tree::split`. -/
def swBoundary (b : Boundary) : Boundary :=
  ⟨⟨b.ul.x, (center b).y⟩, ⟨(center b).x, b.lr.y⟩⟩

/-- The constructor `quad_tree(const Boundary&)`: record the boundary, run
`check_boundary`, start as an empty leaf.  Used by `split` for the children
and available to callers directly. -/
def from_boundary (b : Boundary) : Except QtError QT :=
  match check_boundary b with
  | .error e => .error e
  | .ok _ => .ok (QT.leaf b [])

/-- `quad_tree::split` on a node whose point set is empty: the four children
are constructed (each running `check_boundary`) and the distribution loop
body never runs. -/
def splitEmpty (b : Boundary) : Except QtError QT :=
  match from_boundary (nwBoundary b) with
  | .error e => .error e
  | .ok nw =>
    match from_boundary (neBoundary b) with
    | .error e => .error e
    | .ok ne =>
      match from_boundary (seBoundary b) with
      | .error e => .error e
      | .ok se =>
        match from_boundary (swBoundary b) with
        | .error e => .error e
        | .ok sw => .ok (QT.node b [] nw ne sw se)

/-- `quad_tree::add(PointIterator)` evaluated on a freshly constructed child
leaf (empty point set, no children): containment test, then either store the
handle (when `0 < NodeCapacity`) or split the empty leaf (when
`NodeCapacity = 0`); either way return `true`. -/
def addFresh (cap : ℕ) (b : Boundary) (h : Handle) : Except QtError (QT × Bool) :=
  if point_intersects_boundary b h.pt then
    if 0 < cap then .ok (QT.leaf b [h], true)
    else
      match splitEmpty b with
      | .error e => .error e
      | .ok t => .ok (t, true)
  else .ok (QT.leaf b [], false)

/-- `quad_tree::split`: construct the four children (in the order NW, NE, SE,
SW, each validated by `check_boundary`), then run the distribution loop over
`m_points` in set-iteration order.  The loop `break`s after the first
successful `add`, so only the first handle (the list head) is ever
distributed; a head rejected by all four children throws the
`std::logic_error`; finally `m_points.clear()` empties the local set.  The
children being fresh leaves, their `add` is `addFresh` (see
`add_on_fresh_leaf` below). -/
def split (cap : ℕ) (b : Boundary) (pts : List Handle) : Except QtError QT :=
  match from_boundary (nwBoundary b) with
  | .error e => .error e
  | .ok nw =>
    match from_boundary (neBoundary b) with
    | .error e => .error e
    | .ok ne =>
      match from_boundary (seBoundary b) with
      | .error e => .error e
      | .ok se =>
        match from_boundary (swBoundary b) with
        | .error e => .error e
        | .ok sw =>
          match pts with
          | [] => .ok (QT.node b [] nw ne sw se)
          | h :: _ =>
            match addFresh cap (nwBoundary b) h with
            | .error e => .error e
            | .ok (nw1, true) => .ok (QT.node b [] nw1 ne sw se)
            | .ok (_, false) =>
              match addFresh cap (neBoundary b) h with
              | .error e => .error e
              | .ok (ne1, true) => .ok (QT.node b [] nw ne1 sw se)
              | .ok (_, false) =>
                match addFresh cap (seBoundary b) h with
                | .error e => .error e
                | .ok (se1, true) => .ok (QT.node b [] nw ne sw se1)
                | .ok (_, false) =>
                  match addFresh cap (swBoundary b) h with
                  | .error e => .error e
                  | .ok (sw1, true) => .ok (QT.node b [] nw ne sw1 se)
                  | .ok (_, false) => .error .logicError

/-- `quad_tree::add(PointIterator)`.  Containment test first (`false` with no
mutation on failure).  An internal node delegates to the children in the
fixed order NW, NE, SW, SE, returning on the first success and throwing the
`std::logic_error` when all four refuse.  A leaf below capacity stores the
handle; a leaf at capacity calls `split()` and returns `true` without
re-inserting the handle. -/
def add (cap : ℕ) : QT → Handle → Except QtError (QT × Bool)
  | QT.leaf bd pts, h =>
    if point_intersects_boundary bd h.pt then
      if pts.length < cap then .ok (QT.leaf bd (insertHandle h pts), true)
      else
        match split cap bd pts with
        | .error e => .error e
        | .ok t => .ok (t, true)
    else .ok (QT.leaf bd pts, false)
  | QT.node bd pts nw ne sw se, h =>
    if point_intersects_boundary bd h.pt then
      match add cap nw h with
      | .error e => .error e
      | .ok (nw1, true) => .ok (QT.node bd pts nw1 ne sw se, true)
      | .ok (_, false) =>
        match add cap ne h with
        | .error e => .error e
        | .ok (ne1, true) => .ok (QT.node bd pts nw ne1 sw se, true)
        | .ok (_, false) =>
          match add cap sw h with
          | .error e => .error e
          | .ok (sw1, true) => .ok (QT.node bd pts nw ne sw1 se, true)
          | .ok (_, false) =>
            match add cap se h with
            | .error e => .error e
            | .ok (se1, true) => .ok (QT.node bd pts nw ne sw se1, true)
            | .ok (_, false) => .error .logicError
    else .ok (QT.node bd pts nw ne sw se, false)

/-- `quad_tree::add(PointIterator, PointIterator)`: insert every handle of
the range in range order, discarding the boolean results. -/
def addAll (cap : ℕ) : QT → List Handle → Except QtError QT
  | t, [] => .ok t
  | t, h :: hs =>
    match add cap t h with
    | .error e => .error e
    | .ok (t1, _) => addAll cap t1 hs

/-- One step of the bounding-box scan in `quad_tree(PointIterator,
PointIterator)`: the four conditional corner updates. -/
def extendBoundary (b : Boundary) (p : Pt) : Boundary :=
  let b1 := if p.x < b.ul.x then Boundary.mk ⟨p.x, b.ul.y⟩ b.lr else b
  let b2 := if p.y < b1.ul.y then Boundary.mk ⟨b1.ul.x, p.y⟩ b1.lr else b1
  let b3 := if p.x > b2.lr.x then Boundary.mk b2.ul ⟨p.x, b2.lr.y⟩ else b2
  if p.y > b3.lr.y then Boundary.mk b3.ul ⟨b3.lr.x, p.y⟩ else b3

/-- The constructor `quad_tree(PointIterator, PointIterator)`: reject an
empty range, scan all points for the bounding box starting from
`(first, first)`, run `check_boundary`, then bulk-insert the whole range. -/
def from_range (cap : ℕ) (hs : List Handle) : Except QtError QT :=
  match hs with
  | [] => .error .emptyRange
  | h0 :: _ =>
    let bd := hs.foldl (fun b k => extendBoundary b k.pt) ⟨h0.pt, h0.pt⟩
    match check_boundary bd with
    | .error e => .error e
    | .ok _ => addAll cap (QT.leaf bd []) hs

/-- The constructor `quad_tree(const Boundary&, PointIterator,
PointIterator)`: records the boundary and runs `check_boundary`; the point
range parameters are never used (the source constructor body only calls
`check_boundary`). -/
def with_boundary (cap : ℕ) (b : Boundary) (hs : List Handle) : Except QtError QT :=
  match check_boundary b with
  | .error e => .error e
  | .ok _ => .ok (QT.leaf b [])

/-- Sum of the point counts over all leaves. -/
def leafStored : QT → ℕ
  | QT.leaf _ pts => pts.length
  | QT.node _ _ nw ne sw se =>
    leafStored nw + leafStored ne + leafStored sw + leafStored se

/-- All handles stored anywhere in the tree (local sets of every node). -/
def storedHandles : QT → List Handle
  | QT.leaf _ pts => pts
  | QT.node _ pts nw ne sw se =>
    pts ++ storedHandles nw ++ storedHandles ne ++ storedHandles sw ++ storedHandles se

/-- The boundary of the root node of a tree. -/
def boundaryOf : QT → Boundary
  | QT.leaf bd _ => bd
  | QT.node bd _ _ _ _ _ => bd

/-- The leaf-or-internal invariant: a leaf holds at most `cap` handles; an
internal node has all four children (by construction of `QT.node`, matching
the all-or-nothing assertion of `has_children`) and holds zero handles. -/
def checkInv (cap : ℕ) : QT → Bool
  | QT.leaf _ pts => decide (pts.length ≤ cap)
  | QT.node _ pts nw ne sw se =>
    pts.isEmpty && checkInv cap nw && checkInv cap ne && checkInv cap sw && checkInv cap se

/-- Modelled from the spec's words (tight bounding box: componentwise minimum
for the upper-left corner, componentwise maximum for the lower-right corner),
for comparison with the fold of `extendBoundary` in `from_range`. -/
def specBBox (h0 : Handle) (tl : List Handle) : Boundary :=
  ⟨⟨((h0 :: tl).map (fun k => k.pt.x)).foldl min h0.pt.x,
    ((h0 :: tl).map (fun k => k.pt.y)).foldl min h0.pt.y⟩,
   ⟨((h0 :: tl).map (fun k => k.pt.x)).foldl max h0.pt.x,
    ((h0 :: tl).map (fun k => k.pt.y)).foldl max h0.pt.y⟩⟩

/-- Splitting with an empty stored set is `splitEmpty`: the distribution
loop body never runs. -/
theorem split_nil (cap : ℕ) (b : Boundary) : split cap b [] = splitEmpty b := by
  unfold split splitEmpty
  cases h1 : from_boundary (nwBoundary b) with
  | error e => rfl
  | ok nw =>
    cases h2 : from_boundary (neBoundary b) with
    | error e => rfl
    | ok ne =>
      cases h3 : from_boundary (seBoundary b) with
      | error e => rfl
      | ok se =>
        cases h4 : from_boundary (swBoundary b) with
        | error e => rfl
        | ok sw => rfl

/-- `add` on a freshly constructed leaf (empty point set, no children) is
exactly `addFresh`: this justifies `split` calling `addFresh` for the
recursive child insertions of the source, whose targets are exactly such
fresh leaves. -/
theorem add_on_fresh_leaf (cap : ℕ) (b : Boundary) (h : Handle) :
    add cap (QT.leaf b []) h = addFresh cap b h := by
  unfold add addFresh
  simp only [List.length_nil]
  split_ifs with h1 h2
  · rfl
  · rw [split_nil]
  · rfl

/-! Concrete sample data used by the evaluation theorems and witnesses. -/

/-- Sample boundary: upper-left (0,0), lower-right (4,4). -/
def B0 : Boundary := ⟨⟨0, 0⟩, ⟨4, 4⟩⟩

/-- Sample handle 0, dereferencing to (1,1). -/
def hA : Handle := ⟨0, ⟨1, 1⟩⟩

/-- Sample handle 1, dereferencing to (3,3). -/
def hB : Handle := ⟨1, ⟨3, 3⟩⟩

/-- Sample handle 2, dereferencing to the split center (2,2) of `B0`. -/
def hC : Handle := ⟨2, ⟨2, 2⟩⟩

/-- The tree produced by splitting a `B0` leaf that stores `hA` (also the
result of `split` on the point list `[hA, hB]`): `hA` lands in the NW child,
the local set is cleared. -/
def TS : QT :=
  QT.node B0 []
    (QT.leaf ⟨⟨0, 0⟩, ⟨2, 2⟩⟩ [hA])
    (QT.leaf ⟨⟨2, 0⟩, ⟨4, 2⟩⟩ [])
    (QT.leaf ⟨⟨0, 2⟩, ⟨2, 4⟩⟩ [])
    (QT.leaf ⟨⟨2, 2⟩, ⟨4, 4⟩⟩ [])

/-- The tree produced from `TS` by inserting the center handle `hC` at
capacity 1: the NW child accepts it, is at capacity, splits, and the handle
is dropped. -/
def T9 : QT :=
  QT.node B0 []
    (QT.node ⟨⟨0, 0⟩, ⟨2, 2⟩⟩ []
      (QT.leaf ⟨⟨0, 0⟩, ⟨1, 1⟩⟩ [hA])
      (QT.leaf ⟨⟨1, 0⟩, ⟨2, 1⟩⟩ [])
      (QT.leaf ⟨⟨0, 1⟩, ⟨1, 2⟩⟩ [])
      (QT.leaf ⟨⟨1, 1⟩, ⟨2, 2⟩⟩ []))
    (QT.leaf ⟨⟨2, 0⟩, ⟨4, 2⟩⟩ [])
    (QT.leaf ⟨⟨0, 2⟩, ⟨2, 4⟩⟩ [])
    (QT.leaf ⟨⟨2, 2⟩, ⟨4, 4⟩⟩ [])

/-! Claim theorems. -/

/-- C1: the claimed invariant (sum of leaf point counts = number of
successfully inserted distinct handles) fails on the code.  With capacity 1,
inserting `hA` and then `hB` into an empty leaf over `B0` both return `true`
and the handles are distinct, yet the resulting tree's leaves hold a single
point: `hB` is lost when the full leaf splits, because `add` returns `true`
after `split()` without re-inserting the handle. -/
theorem C1_point_lost_across_split :
    add 1 (QT.leaf B0 []) hA = .ok (QT.leaf B0 [hA], true) ∧
    add 1 (QT.leaf B0 [hA]) hB = .ok (TS, true) ∧
    hA ≠ hB ∧
    leafStored TS = 1 := by decide

/-- C2: the claim (a full leaf splits and then retries the insertion so that
the new point ends up in a descendant leaf) fails on the code.  At capacity 1
the leaf over `B0` storing `hA` receives `hB` (which is inside `B0`): the
node splits and `add` returns `true`, but `hB` is stored nowhere in the
resulting tree — the source never retries the insertion after `split()`. -/
theorem C2_no_retry_after_split :
    point_intersects_boundary B0 hB.pt = true ∧
    add 1 (QT.leaf B0 [hA]) hB = .ok (TS, true) ∧
    hB ∉ storedHandles TS := by decide

/-- C3: the claim (a split redistributes every stored handle into the four
children) fails on the code.  `split` at capacity 2 on the stored set
`[hA, hB]` produces an internal node whose children hold only `hA`: the
distribution loop breaks out after the first successful `add`, and
`m_points.clear()` then discards `hB`. -/
theorem C3_split_discards_all_but_first :
    split 2 B0 [hA, hB] = .ok TS ∧ hB ∉ storedHandles TS := by decide

/-- C4: the claim (constructing with an explicit boundary and a point range
pre-populates the tree with the range) fails on the code.  The
boundary-plus-range constructor returns the empty leaf: its body only
validates the boundary and never touches the range. -/
theorem C4_range_ignored_by_boundary_ctor :
    with_boundary 4 B0 [hA] = .ok (QT.leaf B0 []) ∧
    storedHandles (QT.leaf B0 []) = [] := by decide

/-- C9: the claim (a point on a shared quadrant edge is stored exactly once)
fails on the code.  `hC` dereferences to the split center of `B0`; inserting
it into the internal tree `TS` (whose NW child is a leaf at capacity 1)
returns `true` — the NW quadrant, first in the delegation order, accepts
it — but the handle is stored zero times: the full NW leaf splits and drops
it.  (It is still never duplicated: `storedHandles` of the result is
`[hA]`.) -/
theorem C9_edge_point_stored_zero_times :
    hC.pt = center B0 ∧
    add 1 TS hC = .ok (T9, true) ∧
    hC ∉ storedHandles T9 ∧
    storedHandles T9 = [hA] := by decide

/-- C8: inserting a point whose coordinates do not both lie within the closed
intervals of the root's boundary returns `false` and leaves the tree
unchanged — `add` tests containment first and returns without mutation. -/
theorem C8_out_of_bounds_unchanged (cap : ℕ) (t : QT) (h : Handle)
    (hout : point_intersects_boundary (boundaryOf t) h.pt = false) :
    add cap t h = .ok (t, false) := by
  cases t with
  | leaf bd pts => simp [boundaryOf] at hout; simp [add, hout]
  | node bd pts nw ne sw se => simp [boundaryOf] at hout; simp [add, hout]

/-- C8 witness: inserting the point (5,5), outside `B0`, into the sample
leaf. -/
theorem C8_witness :
    add 4 (QT.leaf B0 [hA]) ⟨3, ⟨5, 5⟩⟩ = .ok (QT.leaf B0 [hA], false) :=
  C8_out_of_bounds_unchanged 4 (QT.leaf B0 [hA]) ⟨3, ⟨5, 5⟩⟩ (by decide)

/-- `std::set::insert` is a no-op on a key that is already present: on a
strictly-id-sorted list containing `h`, `insertHandle h` returns the list
unchanged. -/
theorem insertHandle_of_mem (pts : List Handle) (h : Handle)
    (hsort : pts.Pairwise (fun a b => a.id < b.id)) (hmem : h ∈ pts) :
    insertHandle h pts = pts := by
  induction pts with
  | nil => cases hmem
  | cons x xs ih =>
    rcases List.mem_cons.mp hmem with rfl | hx
    · simp [insertHandle]
    · have hlt : x.id < h.id := (List.pairwise_cons.mp hsort).1 h hx
      have h1 : ¬ h.id < x.id := by omega
      have h2 : ¬ h.id = x.id := by omega
      simp only [insertHandle, if_neg h1, if_neg h2]
      rw [ih (List.pairwise_cons.mp hsort).2 hx]

/-- C10: re-inserting a handle already stored in a leaf with spare capacity
returns `true` and leaves the stored set unchanged (the set holds each handle
at most once), so the repeated insert is idempotent on the tree state.  The
hypotheses record the `std::set` representation invariant (strictly sorted by
handle identity) and the reachability fact that a stored point lies inside
the leaf's boundary. -/
theorem C10_reinsert_idempotent (cap : ℕ) (bd : Boundary) (pts : List Handle)
    (h : Handle) (hsort : pts.Pairwise (fun a b => a.id < b.id))
    (hmem : h ∈ pts) (hcap : pts.length < cap)
    (hin : point_intersects_boundary bd h.pt = true) :
    add cap (QT.leaf bd pts) h = .ok (QT.leaf bd pts, true) := by
  simp [add, hin, hcap, insertHandle_of_mem pts h hsort hmem]

/-- C10 witness: re-inserting `hA` into the sample leaf `[hA]` at
capacity 2. -/
theorem C10_witness :
    add 2 (QT.leaf B0 [hA]) hA = .ok (QT.leaf B0 [hA], true) :=
  C10_reinsert_idempotent 2 B0 [hA] hA (by simp) (by simp) (by decide) (by decide)

/-- A successful `from_boundary` construction passed `check_boundary`. -/
theorem from_boundary_ok_check {bd : Boundary} {t : QT}
    (h : from_boundary bd = .ok t) : check_boundary bd = .ok () := by
  unfold from_boundary at h
  cases hcb : check_boundary bd with
  | error e => rw [hcb] at h; simp at h
  | ok u => cases u; rfl

/-- C7: boundary validation.  `check_boundary` rejects a boundary with equal
coordinates on some axis with `DegenerateBoundaryError`; a non-degenerate
boundary whose upper-left corner exceeds the lower-right on some axis with
`InvertedBoundaryError`; and accepts exactly the boundaries with the corners
in strict order on both axes.  Validation runs at every construction: a
successful explicit-boundary construction implies the check passed, and a
successful `split` implies all four freshly constructed children passed the
check on their boundaries. -/
theorem C7_boundary_validation (b : Boundary) :
    (check_boundary b = .error .degenerateBoundary ↔
      (b.ul.x = b.lr.x ∨ b.ul.y = b.lr.y)) ∧
    (check_boundary b = .error .invertedBoundary ↔
      (¬(b.ul.x = b.lr.x ∨ b.ul.y = b.lr.y) ∧ (b.ul.x > b.lr.x ∨ b.ul.y > b.lr.y))) ∧
    (check_boundary b = .ok () ↔ (b.ul.x < b.lr.x ∧ b.ul.y < b.lr.y)) ∧
    (∀ t, from_boundary b = .ok t ↔ (check_boundary b = .ok () ∧ t = QT.leaf b [])) ∧
    (∀ cap hs t, with_boundary cap b hs = .ok t → check_boundary b = .ok ()) ∧
    (∀ cap pts t, split cap b pts = .ok t →
      check_boundary (nwBoundary b) = .ok () ∧ check_boundary (neBoundary b) = .ok () ∧
      check_boundary (seBoundary b) = .ok () ∧ check_boundary (swBoundary b) = .ok ()) := by
  refine ⟨?_, ?_, ?_, ?_, ?_, ?_⟩
  · unfold check_boundary; split_ifs with h1 h2
    · simp [h1]
    · simp [h1]
    · simp [h1]
  · unfold check_boundary; split_ifs with h1 h2
    · simp [h1]
    · simp [h1, h2]
    · simp [h1, h2]
  · unfold check_boundary; split_ifs with h1 h2
    · simp only [reduceCtorEq, false_iff]; omega
    · simp only [reduceCtorEq, false_iff]; omega
    · simp only [true_iff]; omega
  · intro t
    unfold from_boundary
    cases hcb : check_boundary b with
    | error e => simp
    | ok u => cases u; simp [eq_comm]
  · intro cap hs t h
    unfold with_boundary at h
    cases hcb : check_boundary b with
    | error e => rw [hcb] at h; simp at h
    | ok u => cases u; rfl
  · intro cap pts t h
    unfold split at h
    cases h1 : from_boundary (nwBoundary b) with
    | error e => rw [h1] at h; simp at h
    | ok nw =>
      rw [h1] at h
      cases h2 : from_boundary (neBoundary b) with
      | error e => rw [h2] at h; simp at h
      | ok ne =>
        rw [h2] at h
        cases h3 : from_boundary (seBoundary b) with
        | error e => rw [h3] at h; simp at h
        | ok se =>
          rw [h3] at h
          cases h4 : from_boundary (swBoundary b) with
          | error e => rw [h4] at h; simp at h
          | ok sw =>
            exact ⟨from_boundary_ok_check h1, from_boundary_ok_check h2,
              from_boundary_ok_check h3, from_boundary_ok_check h4⟩

/-- `std::set::insert` grows the set by at most one element. -/
theorem insertHandle_length (h : Handle) : ∀ pts : List Handle,
    (insertHandle h pts).length ≤ pts.length + 1
  | [] => by simp [insertHandle]
  | x :: xs => by
    unfold insertHandle
    split_ifs with h1 h2
    · simp
    · simp
    · have := insertHandle_length h xs
      simp only [List.length_cons]
      omega

/-- A successful `from_boundary` construction is the empty leaf at that
boundary. -/
theorem from_boundary_ok_shape {bd : Boundary} {t : QT}
    (h : from_boundary bd = .ok t) : t = QT.leaf bd [] := by
  unfold from_boundary at h
  split at h
  · simp at h
  · simp at h; exact h.symm

/-- Splitting an empty leaf yields a tree satisfying the leaf-or-internal
invariant at any capacity. -/
theorem checkInv_splitEmpty (cap : ℕ) (b : Boundary) {t : QT}
    (h : splitEmpty b = .ok t) : checkInv cap t = true := by
  unfold splitEmpty at h
  split at h
  · simp at h
  · rename_i nw h1
    split at h
    · simp at h
    · rename_i ne h2
      split at h
      · simp at h
      · rename_i se h3
        split at h
        · simp at h
        · rename_i sw h4
          simp at h
          rw [from_boundary_ok_shape h1, from_boundary_ok_shape h2,
            from_boundary_ok_shape h3, from_boundary_ok_shape h4] at h
          rw [← h]
          simp [checkInv]

/-- `add` on a fresh child leaf produces a tree satisfying the
leaf-or-internal invariant. -/
theorem checkInv_addFresh (cap : ℕ) (b : Boundary) (h : Handle) {t : QT} {r : Bool}
    (hok : addFresh cap b h = .ok (t, r)) : checkInv cap t = true := by
  unfold addFresh at hok
  split_ifs at hok with h1 h2
  · simp at hok
    rw [← hok.1]
    simp [checkInv]
    omega
  · split at hok
    · simp at hok
    · rename_i t0 h3
      simp at hok
      rw [← hok.1]
      exact checkInv_splitEmpty cap b h3
  · simp at hok
    rw [← hok.1]
    simp [checkInv]

/-- `split` always produces a tree satisfying the leaf-or-internal invariant:
an internal node with an empty local set whose four children are fresh leaves
holding at most one handle each. -/
theorem checkInv_split (cap : ℕ) (b : Boundary) (pts : List Handle) {t : QT}
    (h : split cap b pts = .ok t) : checkInv cap t = true := by
  unfold split at h
  split at h
  · simp at h
  · rename_i nw h1
    split at h
    · simp at h
    · rename_i ne h2
      split at h
      · simp at h
      · rename_i se h3
        split at h
        · simp at h
        · rename_i sw h4
          rw [from_boundary_ok_shape h1, from_boundary_ok_shape h2,
            from_boundary_ok_shape h3, from_boundary_ok_shape h4] at h
          split at h
          · simp at h
            rw [← h]
            simp [checkInv]
          · rename_i hh tl
            split at h
            · simp at h
            · rename_i nw1 ha
              simp at h
              rw [← h]
              simp [checkInv, checkInv_addFresh cap (nwBoundary b) hh ha]
            · split at h
              · simp at h
              · rename_i ne1 ha
                simp at h
                rw [← h]
                simp [checkInv, checkInv_addFresh cap (neBoundary b) hh ha]
              · split at h
                · simp at h
                · rename_i se1 ha
                  simp at h
                  rw [← h]
                  simp [checkInv, checkInv_addFresh cap (seBoundary b) hh ha]
                · split at h
                  · simp at h
                  · rename_i sw1 ha
                    simp at h
                    rw [← h]
                    simp [checkInv, checkInv_addFresh cap (swBoundary b) hh ha]
                  · simp at h

/-- `add` preserves the leaf-or-internal invariant. -/
theorem checkInv_add (cap : ℕ) : ∀ (t : QT) (h : Handle) (t' : QT) (r : Bool),
    checkInv cap t = true → add cap t h = .ok (t', r) → checkInv cap t' = true
  | QT.leaf bd pts, h, t', r => by
    intro hinv hok
    unfold add at hok
    split_ifs at hok with hc hlen
    · simp at hok
      rw [← hok.1]
      simp [checkInv] at hinv ⊢
      have := insertHandle_length h pts
      omega
    · split at hok
      · simp at hok
      · rename_i t0 hs
        simp at hok
        rw [← hok.1]
        exact checkInv_split cap bd pts hs
    · simp at hok
      rw [← hok.1]
      exact hinv
  | QT.node bd pts nw ne sw se, h, t', r => by
    intro hinv hok
    simp only [checkInv, Bool.and_eq_true] at hinv
    obtain ⟨⟨⟨⟨hpts, hnw⟩, hne⟩, hsw⟩, hse⟩ := hinv
    unfold add at hok
    split_ifs at hok with hc
    · split at hok
      · simp at hok
      · rename_i nw1 ha
        simp at hok
        rw [← hok.1]
        simp [checkInv, hpts, hne, hsw, hse, checkInv_add cap nw h nw1 true hnw ha]
      · split at hok
        · simp at hok
        · rename_i ne1 ha
          simp at hok
          rw [← hok.1]
          simp [checkInv, hpts, hnw, hsw, hse, checkInv_add cap ne h ne1 true hne ha]
        · split at hok
          · simp at hok
          · rename_i sw1 ha
            simp at hok
            rw [← hok.1]
            simp [checkInv, hpts, hnw, hne, hse, checkInv_add cap sw h sw1 true hsw ha]
          · split at hok
            · simp at hok
            · rename_i se1 ha
              simp at hok
              rw [← hok.1]
              simp [checkInv, hpts, hnw, hne, hsw, checkInv_add cap se h se1 true hse ha]
            · simp at hok
    · simp at hok
      rw [← hok.1]
      simp [checkInv, hpts, hnw, hne, hsw, hse]

/-- Bulk insertion preserves the leaf-or-internal invariant. -/
theorem checkInv_addAll (cap : ℕ) : ∀ (hs : List Handle) (t t' : QT),
    checkInv cap t = true → addAll cap t hs = .ok t' → checkInv cap t' = true
  | [], t, t' => by
    intro hinv hok
    unfold addAll at hok
    simp at hok
    rw [← hok]
    exact hinv
  | h :: hs, t, t' => by
    intro hinv hok
    unfold addAll at hok
    split at hok
    · simp at hok
    · rename_i t1 r hstep
      exact checkInv_addAll cap hs t1 t' (checkInv_add cap t h t1 r hinv hstep) hok

/-- C6: after any sequence of operations, every node of the tree is either a
leaf holding at most `NodeCapacity` handles or an internal node with all four
children (a structural fact of `QT.node`, matching the all-or-nothing
assertion of `has_children`) holding exactly zero handles: the invariant
`checkInv` holds for every constructor output and is preserved by every
insertion. -/
theorem C6_leaf_or_internal_invariant (cap : ℕ) :
    (∀ b t, from_boundary b = .ok t → checkInv cap t = true) ∧
    (∀ b hs t, with_boundary cap b hs = .ok t → checkInv cap t = true) ∧
    (∀ hs t, from_range cap hs = .ok t → checkInv cap t = true) ∧
    (∀ t h t' r, checkInv cap t = true → add cap t h = .ok (t', r) →
      checkInv cap t' = true) := by
  refine ⟨?_, ?_, ?_, ?_⟩
  · intro b t hok
    rw [from_boundary_ok_shape hok]
    simp [checkInv]
  · intro b hs t hok
    unfold with_boundary at hok
    split at hok
    · simp at hok
    · simp at hok
      rw [← hok]
      simp [checkInv]
  · intro hs t hok
    unfold from_range at hok
    split at hok
    · simp at hok
    · rename_i h0 tl
      dsimp only at hok
      split at hok
      · simp at hok
      · exact checkInv_addAll cap _ (QT.leaf _ []) t (by simp [checkInv]) hok
  · intro t h t' r hinv hok
    exact checkInv_add cap t h t' r hinv hok

/-- One bounding-box scan step computes the componentwise minimum and
maximum of the running corners and the point. -/
theorem extendBoundary_minmax (b : Boundary) (p : Pt) :
    extendBoundary b p =
      ⟨⟨min b.ul.x p.x, min b.ul.y p.y⟩, ⟨max b.lr.x p.x, max b.lr.y p.y⟩⟩ := by
  unfold extendBoundary
  dsimp only
  split_ifs <;> simp_all [Boundary.mk.injEq, Pt.mk.injEq] <;> omega

/-- The whole bounding-box scan computes the componentwise minimum and
maximum over the scanned points. -/
theorem foldl_extendBoundary : ∀ (l : List Handle) (b : Boundary),
    l.foldl (fun acc k => extendBoundary acc k.pt) b =
      ⟨⟨(l.map fun k => k.pt.x).foldl min b.ul.x,
        (l.map fun k => k.pt.y).foldl min b.ul.y⟩,
       ⟨(l.map fun k => k.pt.x).foldl max b.lr.x,
        (l.map fun k => k.pt.y).foldl max b.lr.y⟩⟩
  | [], b => rfl
  | k :: tl, b => by
    simp only [List.foldl_cons, List.map_cons]
    rw [extendBoundary_minmax]
    exact foldl_extendBoundary tl
      ⟨⟨min b.ul.x k.pt.x, min b.ul.y k.pt.y⟩, ⟨max b.lr.x k.pt.x, max b.lr.y k.pt.y⟩⟩

/-- `check_boundary` never reports the empty-range error. -/
theorem check_boundary_ne_emptyRange (b : Boundary) :
    check_boundary b ≠ .error .emptyRange := by
  unfold check_boundary
  split_ifs <;> simp

/-- `from_boundary` never reports the empty-range error. -/
theorem from_boundary_ne_emptyRange (b : Boundary) :
    from_boundary b ≠ .error .emptyRange := by
  unfold from_boundary
  split
  · rename_i e he
    intro hc
    simp at hc
    subst hc
    exact check_boundary_ne_emptyRange b he
  · simp

/-- Splitting an empty leaf never reports the empty-range error. -/
theorem splitEmpty_ne_emptyRange (b : Boundary) :
    splitEmpty b ≠ .error .emptyRange := by
  unfold splitEmpty
  split
  · rename_i e he
    intro hc; simp at hc; subst hc
    exact from_boundary_ne_emptyRange _ he
  · split
    · rename_i e he
      intro hc; simp at hc; subst hc
      exact from_boundary_ne_emptyRange _ he
    · split
      · rename_i e he
        intro hc; simp at hc; subst hc
        exact from_boundary_ne_emptyRange _ he
      · split
        · rename_i e he
          intro hc; simp at hc; subst hc
          exact from_boundary_ne_emptyRange _ he
        · simp

/-- `add` on a fresh child leaf never reports the empty-range error. -/
theorem addFresh_ne_emptyRange (cap : ℕ) (b : Boundary) (h : Handle) :
    addFresh cap b h ≠ .error .emptyRange := by
  unfold addFresh
  split_ifs
  · simp
  · split
    · rename_i e he
      intro hc; simp at hc; subst hc
      exact splitEmpty_ne_emptyRange _ he
    · simp
  · simp

/-- `split` never reports the empty-range error. -/
theorem split_ne_emptyRange (cap : ℕ) (b : Boundary) (pts : List Handle) :
    split cap b pts ≠ .error .emptyRange := by
  unfold split
  split
  · rename_i e he
    intro hc; simp at hc; subst hc
    exact from_boundary_ne_emptyRange _ he
  · split
    · rename_i e he
      intro hc; simp at hc; subst hc
      exact from_boundary_ne_emptyRange _ he
    · split
      · rename_i e he
        intro hc; simp at hc; subst hc
        exact from_boundary_ne_emptyRange _ he
      · split
        · rename_i e he
          intro hc; simp at hc; subst hc
          exact from_boundary_ne_emptyRange _ he
        · split
          · simp
          · split
            · rename_i e he
              intro hc; simp at hc; subst hc
              exact addFresh_ne_emptyRange _ _ _ he
            · simp
            · split
              · rename_i e he
                intro hc; simp at hc; subst hc
                exact addFresh_ne_emptyRange _ _ _ he
              · simp
              · split
                · rename_i e he
                  intro hc; simp at hc; subst hc
                  exact addFresh_ne_emptyRange _ _ _ he
                · simp
                · split
                  · rename_i e he
                    intro hc; simp at hc; subst hc
                    exact addFresh_ne_emptyRange _ _ _ he
                  · simp
                  · simp

/-- `add` never reports the empty-range error. -/
theorem add_ne_emptyRange (cap : ℕ) : ∀ (t : QT) (h : Handle),
    add cap t h ≠ .error .emptyRange
  | QT.leaf bd pts, h => by
    unfold add
    split_ifs
    · simp
    · split
      · rename_i e he
        intro hc; simp at hc; subst hc
        exact split_ne_emptyRange cap bd pts he
      · simp
    · simp
  | QT.node bd pts nw ne sw se, h => by
    unfold add
    split_ifs
    · split
      · rename_i e he
        intro hc; simp at hc; subst hc
        exact add_ne_emptyRange cap nw h he
      · simp
      · split
        · rename_i e he
          intro hc; simp at hc; subst hc
          exact add_ne_emptyRange cap ne h he
        · simp
        · split
          · rename_i e he
            intro hc; simp at hc; subst hc
            exact add_ne_emptyRange cap sw h he
          · simp
          · split
            · rename_i e he
              intro hc; simp at hc; subst hc
              exact add_ne_emptyRange cap se h he
            · simp
            · simp
    · simp

/-- Bulk insertion never reports the empty-range error. -/
theorem addAll_ne_emptyRange (cap : ℕ) : ∀ (hs : List Handle) (t : QT),
    addAll cap t hs ≠ .error .emptyRange
  | [], t => by unfold addAll; simp
  | h :: hs, t => by
    unfold addAll
    split
    · rename_i e he
      intro hc; simp at hc; subst hc
      exact add_ne_emptyRange cap t h he
    · exact addAll_ne_emptyRange cap hs _

/-- C5: construction from a point range fails with `EmptyRangeError` exactly
on the empty range; on a non-empty range it computes the tight axis-aligned
bounding box (componentwise minimum for the upper-left corner, componentwise
maximum for the lower-right corner, stated through the spec-side definition
`specBBox`), validates it with `check_boundary`, and then inserts every point
of the range, in range order. -/
theorem C5_from_range_spec (cap : ℕ) (hs : List Handle) :
    (from_range cap hs = .error .emptyRange ↔ hs = []) ∧
    (∀ h0 tl, hs = h0 :: tl →
      from_range cap hs =
        match check_boundary (specBBox h0 tl) with
        | .error e => .error e
        | .ok _ => addAll cap (QT.leaf (specBBox h0 tl) []) (h0 :: tl)) := by
  constructor
  · constructor
    · intro hfail
      cases hs with
      | nil => rfl
      | cons h0 tl =>
        exfalso
        unfold from_range at hfail
        dsimp only at hfail
        split at hfail
        · rename_i e he
          simp at hfail
          subst hfail
          exact check_boundary_ne_emptyRange _ he
        · exact addAll_ne_emptyRange cap _ _ hfail
    · intro hnil
      subst hnil
      rfl
  · intro h0 tl hcons
    subst hcons
    unfold from_range
    dsimp only
    have hbb : (h0 :: tl).foldl (fun acc k => extendBoundary acc k.pt)
        ⟨h0.pt, h0.pt⟩ = specBBox h0 tl := by
      rw [foldl_extendBoundary]
      rfl
    rw [hbb]

end QuadTreeModel
